import Mathlib

/-!
Verification development for the fakku-downloader repository
(single source file `downloader.py`).

The Python source is shallowly embedded below.  Pure string processing
(`sanitize_url`, `__get_page_count`, `__get_page_count_in_collection`,
`__get_urls_list`) is translated to executable Lean functions over
`List Char` / `String`.  The stateful main loop (`load_all`,
`remove_manga_folder`, `add_done`, `add_failed`,
`load_urls_from_collection`) is embedded as an explicit state machine:
the filesystem, the browser window size and the two append-only outcome
lists are threaded through an interpreter, while the behaviour of the
external world (rendered page sources, screenshot contents, javascript
faults, page-load synchronization outcomes) is supplied by an
environment of oracles, one per browser primitive the code calls.
-/

namespace FakkuDL

/-- Constant `BASE_URL` from downloader.py. -/
def BASE_URL : String := "https://www.fakku.net"

/-- Constant `FAIL_THRESHOLD` from downloader.py: an image with any
dimension below this makes the whole manga fail validation. -/
def FAIL_THRESHOLD : Nat := 1000

/-- The characters of the literal part `\/read` of the regex in `sanitize_url`. -/
def readChars : List Char := ['/', 'r', 'e', 'a', 'd']

/-- The characters of the literal part `\/page\/` of the regex in `sanitize_url`. -/
def pageChars : List Char := ['/', 'p', 'a', 'g', 'e', '/']

/-- Embedding of `re.sub(r"\/read(\/page\/.+)?", "", url)` from
`sanitize_url` (downloader.py line 55).  The scan moves left to right;
at the first position where the literal `/read` matches, the optional
group `\/page\/.+` is tried greedily (`.` does not match a newline, so
`.+` consumes the maximal nonempty run of non-newline characters), the
match is deleted, and scanning resumes after the match, exactly as
`re.sub` does.  The extra fuel argument only makes the recursion
structural; every step consumes at least one character, so fuel equal
to the length of the list (as supplied by `sanitizeAux`) never runs
out. -/
def sanitizeFuel : Nat → List Char → List Char
  | _, [] => []
  | 0, l => l
  | fuel + 1, c :: cs =>
    if readChars.isPrefixOf (c :: cs) then
      if pageChars.isPrefixOf (cs.drop 4)
          && !((cs.drop 10).takeWhile (fun ch => ch ≠ '\n')).isEmpty then
        sanitizeFuel fuel ((cs.drop 10).drop
          ((cs.drop 10).takeWhile (fun ch => ch ≠ '\n')).length)
      else
        sanitizeFuel fuel (cs.drop 4)
    else
      c :: sanitizeFuel fuel cs

/-- The substitution scan started with sufficient fuel. -/
def sanitizeAux (l : List Char) : List Char := sanitizeFuel l.length l

/-- Function `sanitize_url` from downloader.py (lines 53-56). -/
def sanitize_url (s : String) : String := ⟨sanitizeAux s.toList⟩

/-- Whether the substring `/read` occurs anywhere in the character list
(i.e. whether the regex of `sanitize_url` can still find a match). -/
def hasReadSub : List Char → Bool
  | [] => false
  | c :: cs => readChars.isPrefixOf (c :: cs) || hasReadSub cs

/-- If `/read` occurs nowhere, the substitution of `sanitize_url`
leaves the string unchanged, for any amount of fuel. -/
theorem sanitizeFuel_id_of_no_read :
    ∀ (fuel : Nat) (l : List Char), hasReadSub l = false → sanitizeFuel fuel l = l := by
  intro fuel
  induction fuel with
  | zero => intro l _; cases l <;> rfl
  | succ fuel ih =>
    intro l h
    cases l with
    | nil => rfl
    | cons c cs =>
      simp only [hasReadSub, Bool.or_eq_false_iff] at h
      rw [sanitizeFuel, if_neg (by simp [h.1]), ih cs h.2]

/-- If `/read` occurs nowhere, `sanitizeAux` leaves the string unchanged. -/
theorem sanitizeAux_id_of_no_read (l : List Char) (h : hasReadSub l = false) :
    sanitizeAux l = l :=
  sanitizeFuel_id_of_no_read l.length l h

/-- Numeric value of a run of decimal digits, as `int()` computes it. -/
def digitsVal (ds : List Char) : Nat :=
  ds.foldl (fun a c => a * 10 + (c.toNat - 48)) 0

/-- Attempt to match the regex `\"\>(\d+) page(s?)\<\/div\>` of
`__get_page_count` (downloader.py line 391) at the head of the list:
literal `">`, then a maximal nonempty digit run, then `" page"`, an
optional `s`, and `</div>`. -/
def pageMarker (l : List Char) : Option Nat :=
  match l with
  | '"' :: '>' :: rest =>
    let ds := rest.takeWhile Char.isDigit
    if ds.isEmpty then none
    else
      let after := rest.drop ds.length
      if (" page".toList).isPrefixOf after then
        if ("s</div>".toList).isPrefixOf (after.drop 5)
            || ("</div>".toList).isPrefixOf (after.drop 5) then
          some (digitsVal ds)
        else none
      else none
  | _ => none

/-- Leftmost search of the page-count marker, as `re.search` performs it. -/
def getPageCountAux : List Char → Option Nat
  | [] => none
  | c :: cs =>
    match pageMarker (c :: cs) with
    | some n => some n
    | none => getPageCountAux cs

/-- Method `FDownloader.__get_page_count` (downloader.py lines 381-395):
`some n` models a successful match, `none` models the raised
`ValueError("Page count are not found.")`. -/
def getPageCount (pageSource : String) : Option Nat :=
  getPageCountAux pageSource.toList

/-- First match of `re.search(r"\/page\/(\d+)", href)`: leftmost
occurrence of `/page/` followed by a nonempty digit run. -/
def pageNumOf : List Char → Option Nat
  | [] => none
  | c :: cs =>
    if pageChars.isPrefixOf (c :: cs) then
      let ds := ((c :: cs).drop 6).takeWhile Char.isDigit
      if ds.isEmpty then pageNumOf cs else some (digitsVal ds)
    else pageNumOf cs

/-- Method `FDownloader.__get_page_count_in_collection` (downloader.py lines
397-421): scan every anchor href for `/page/(\d+)`, take the maximum
referenced page number, defaulting to 1 when no pagination link exists. -/
def getPageCountInCollection (anchorHrefs : List String) : Nat :=
  let nums := anchorHrefs.filterMap (fun h => pageNumOf h.toList)
  match nums.max? with
  | some m => m
  | none => 1

/-- Transformation `line.replace("\n", "")` applied to each line read from the three
list files. -/
def stripNl (s : String) : String := ⟨s.toList.filter (fun c => c ≠ '\n')⟩

/-- One iteration of the url-collecting loop of
`FDownloader.__get_urls_list` (downloader.py lines 441-446): sanitize
the line and append it unless it is already in `done`, `failed` or the
accumulator. -/
def queueInsert (done failed urls : List String) (line : String) : List String :=
  if sanitize_url (stripNl line) ∉ done ∧ sanitize_url (stripNl line) ∉ failed ∧
      sanitize_url (stripNl line) ∉ urls
  then urls ++ [sanitize_url (stripNl line)] else urls

/-- Method `FDownloader.__get_urls_list` (downloader.py lines 423-447): read
the done and fail files as raw lines, then build the work queue from
the urls file, sanitizing each line and skipping duplicates and lines
whose sanitized form is already recorded. -/
def getUrlsList (doneLines failLines urlLines : List String) : List String :=
  let done := doneLines.map stripNl
  let failed := failLines.map stripNl
  urlLines.foldl (fun urls line => queueInsert done failed urls line) []

/-- Abstraction of one rendered listing page of a collection, at the
level `load_urls_from_collection` inspects it through BeautifulSoup:
`anchorHrefs` is the href of every `<a>` element (scanned for
pagination links by `__get_page_count_in_collection`), `colComicHrefs`
is the href of the first `<a>` inside each `div.col-comic` item entry,
in document order. -/
structure ListingPage where
  anchorHrefs : List String
  colComicHrefs : List String

/-- Oracles for the collection expander: the rendered listing page for
each page number, and whether the page-load wait of
`waiting_loading_page` succeeded (`false` models the fatal timeout). -/
structure CollEnv where
  page : Nat → ListingPage
  syncOk : Nat → Bool

/-- The per-page loop of `FDownloader.load_urls_from_collection`
(downloader.py lines 372-379): for each listing page (the first one is
already loaded, later ones are navigated to and awaited), append
`BASE_URL + href` for every item entry.  The boolean is `false` when a
synchronization timeout terminated the process mid-loop, leaving the
lines appended so far. -/
def collectLines (env : CollEnv) : List Nat → List String → List String × Bool
  | [], acc => (acc, true)
  | p :: ps, acc =>
    if p = 1 || env.syncOk p then
      collectLines env ps
        (acc ++ (env.page p).colComicHrefs.map (fun h => BASE_URL ++ h))
    else (acc, false)

/-- Method `FDownloader.load_urls_from_collection` (downloader.py lines
364-379): navigate to the collection, await it, read the listing page
count from the first page's pagination links, then append the
fully-qualified item links of every listing page to the urls file. -/
def load_urls_from_collection (env : CollEnv) : List String × Bool :=
  if env.syncOk 1 then
    collectLines env
      (List.range' 1 (getPageCountInCollection (env.page 1).anchorHrefs)) []
  else ([], false)

/-- C4, counterexample: canonicalization is NOT idempotent for every url
string.  On `"/rea/readd"` one application of `sanitize_url` deletes the
inner `/read` occurrence and splices the surrounding fragments into a
new `/read`, which a second application deletes as well. -/
theorem sanitize_url_not_idempotent :
    sanitize_url (sanitize_url "/rea/readd") ≠ sanitize_url "/rea/readd" := by
  decide

/-- C4 (amended): canonicalization is idempotent on every url string
whose canonical form no longer contains the substring `/read` (in
particular on every well-formed site url), and it strips a
reader/page-number suffix: `sanitize_url "https://site/x/read/page/3"`
is `"https://site/x"`. -/
theorem sanitize_url_idempotent_on_clean :
    (∀ x : String, hasReadSub (sanitize_url x).toList = false →
        sanitize_url (sanitize_url x) = sanitize_url x) ∧
    sanitize_url "https://site/x/read/page/3" = "https://site/x" := by
  constructor
  · intro x h
    show (⟨sanitizeAux (sanitize_url x).toList⟩ : String) = sanitize_url x
    rw [sanitizeAux_id_of_no_read _ h]
    rfl
  · decide

/-- Witness for C4's amended theorem at the spec's own example url. -/
theorem sanitize_url_idempotent_on_clean_witness :
    hasReadSub (sanitize_url "https://site/x/read/page/3").toList = false ∧
    sanitize_url (sanitize_url "https://site/x/read/page/3") =
      sanitize_url "https://site/x/read/page/3" :=
  ⟨by decide, sanitize_url_idempotent_on_clean.1 "https://site/x/read/page/3" (by decide)⟩

/-- The fold of `__get_urls_list` preserves, for arbitrary input
ordering: the accumulated queue has no duplicates and contains no entry
present in the done or failed lists. -/
theorem getUrlsList_fold_clean (done failed : List String) :
    ∀ (lines acc : List String),
      acc.Nodup → (∀ u ∈ acc, u ∉ done ∧ u ∉ failed) →
      (lines.foldl (fun urls line => queueInsert done failed urls line) acc).Nodup ∧
      ∀ u ∈ lines.foldl (fun urls line => queueInsert done failed urls line) acc,
        u ∉ done ∧ u ∉ failed := by
  intro lines
  induction lines with
  | nil => intro acc h1 h2; exact ⟨h1, h2⟩
  | cons line rest ih =>
    intro acc h1 h2
    simp only [List.foldl_cons]
    apply ih
    · unfold queueInsert
      split
      · next hc =>
        rw [List.nodup_append]
        exact ⟨h1, List.nodup_singleton _,
          fun a ha hb => hc.2.2 (by simpa using (List.mem_singleton.mp hb) ▸ ha)⟩
      · exact h1
    · intro u hu
      unfold queueInsert at hu
      split at hu
      · next hc =>
        rcases List.mem_append.mp hu with h | h
        · exact h2 u h
        · rw [List.mem_singleton.mp h]
          exact ⟨hc.1, hc.2.1⟩
      · exact h2 u hu

/-- C5: for every contents of the requested, completed and failed list
files (hence for every ordering of their lines, since the statement is
universally quantified over all three line lists), the constructed work
queue contains no identifier twice, and no identifier that is present
(as a raw recorded line) in the completed or failed list. -/
theorem getUrlsList_nodup_and_excludes (doneLines failLines urlLines : List String) :
    (getUrlsList doneLines failLines urlLines).Nodup ∧
    ∀ u ∈ getUrlsList doneLines failLines urlLines,
      u ∉ doneLines.map stripNl ∧ u ∉ failLines.map stripNl := by
  unfold getUrlsList
  exact getUrlsList_fold_clean _ _ urlLines [] (List.nodup_nil) (by simp)

/-- Witness for C5 on concrete file contents: the queue built from urls
file lines `a, c, b, c` with `a` completed and `b` failed keeps only
`c`, which is in neither recorded list. -/
theorem getUrlsList_nodup_and_excludes_witness :
    "c" ∉ (["a"].map stripNl) ∧ "c" ∉ (["b"].map stripNl) :=
  (getUrlsList_nodup_and_excludes ["a"] ["b"] ["a", "c", "b", "c"]).2 "c" (by decide)

/-- C10: work-queue exclusion compares the sanitized requested line
against the raw recorded lines by literal string equality, so a
completed-file (or failed-file) line that is not in canonical form does
not exclude its canonical form: the canonicalized identifier re-enters
the queue. -/
theorem raw_recorded_line_reenters (d : String)
    (h : sanitize_url (stripNl d) ≠ stripNl d) :
    getUrlsList [d] [] [d] = [sanitize_url (stripNl d)] ∧
    getUrlsList [] [d] [d] = [sanitize_url (stripNl d)] := by
  constructor <;>
  · unfold getUrlsList queueInsert
    simp [h]

/-- Witness for C10: a completed-file line still carrying a
`/read/page/3` suffix does not keep its canonical form out of the queue. -/
theorem raw_recorded_line_reenters_witness :
    sanitize_url (stripNl "https://site/x/read/page/3") ≠
      stripNl "https://site/x/read/page/3" ∧
    getUrlsList ["https://site/x/read/page/3"] [] ["https://site/x/read/page/3"] =
      [sanitize_url (stripNl "https://site/x/read/page/3")] :=
  ⟨by decide, (raw_recorded_line_reenters "https://site/x/read/page/3" (by decide)).1⟩

/-- Listing page 1 of the concrete collection used for C3: pagination
links to pages 1-3 and four item entries, the first of which (`/hentai/a`)
also appears on page 2. -/
def collPage1 : ListingPage :=
  ⟨["/z/page/1", "/z/page/2", "/z/page/3"],
   ["/hentai/a", "/hentai/b", "/hentai/c", "/hentai/d"]⟩

/-- Listing page 2 of the concrete collection used for C3; it repeats
the item `/hentai/a` of page 1. -/
def collPage2 : ListingPage :=
  ⟨[], ["/hentai/a", "/hentai/e", "/hentai/f", "/hentai/g"]⟩

/-- Listing page 3 of the concrete collection used for C3. -/
def collPage3 : ListingPage :=
  ⟨[], ["/hentai/h", "/hentai/i", "/hentai/j", "/hentai/k"]⟩

/-- Concrete collection environment with three listing pages of four
item entries each, one item listed on two pages, and no timeouts. -/
def collEnvDup : CollEnv :=
  ⟨fun p => if p = 2 then collPage2 else if p = 3 then collPage3 else collPage1,
   fun _ => true⟩

/-- C3, counterexample: on a collection whose pagination links reference
pages 1-3 and whose listing container holds 4 entries per page, the code
appends 12 lines, but when the same item appears on two listing pages its
identifier IS appended more than once — `load_urls_from_collection`
performs no de-duplication. -/
theorem collection_duplicate_appended :
    getPageCountInCollection (collEnvDup.page 1).anchorHrefs = 3 ∧
    ((collEnvDup.page 1).colComicHrefs).length = 4 ∧
    ((collEnvDup.page 2).colComicHrefs).length = 4 ∧
    ((collEnvDup.page 3).colComicHrefs).length = 4 ∧
    (load_urls_from_collection collEnvDup).1.length = 12 ∧
    ¬ (load_urls_from_collection collEnvDup).1.Nodup := by
  decide

/-- One successful step of the collection loop. -/
theorem collectLines_step (env : CollEnv) (p : Nat) (ps : List Nat)
    (acc : List String) (h : p = 1 ∨ env.syncOk p = true) :
    collectLines env (p :: ps) acc =
      collectLines env ps
        (acc ++ (env.page p).colComicHrefs.map (fun h => BASE_URL ++ h)) := by
  rcases h with h | h <;> simp [collectLines, h]

/-- C3 (amended): for a collection listing whose pagination links
reference pages 1 through 3 and whose listing container holds 4 item
entries per page, collection expansion appends exactly 12 identifiers,
each one an item link prefixed with the base site url; an identifier
appearing on two listing pages is appended once per appearance, and
duplicates are only removed later, by work-queue construction. -/
theorem collection_three_pages_appends_twelve (env : CollEnv)
    (hsync : ∀ p, env.syncOk p = true)
    (hcount : getPageCountInCollection (env.page 1).anchorHrefs = 3)
    (h1 : ((env.page 1).colComicHrefs).length = 4)
    (h2 : ((env.page 2).colComicHrefs).length = 4)
    (h3 : ((env.page 3).colComicHrefs).length = 4) :
    (load_urls_from_collection env).2 = true ∧
    (load_urls_from_collection env).1.length = 12 ∧
    ∀ s ∈ (load_urls_from_collection env).1,
      ∃ p, p ∈ [1, 2, 3] ∧ ∃ h ∈ (env.page p).colComicHrefs, s = BASE_URL ++ h := by
  have hr : List.range' 1 3 = [1, 2, 3] := rfl
  unfold load_urls_from_collection
  rw [if_pos (hsync 1), hcount, hr]
  rw [collectLines_step env 1 _ _ (Or.inl rfl),
      collectLines_step env 2 _ _ (Or.inr (hsync 2)),
      collectLines_step env 3 _ _ (Or.inr (hsync 3))]
  simp only [collectLines, List.nil_append]
  refine ⟨by simp, ?_, ?_⟩
  · simp [h1, h2, h3]
  · intro s hs
    simp only [List.mem_append, List.mem_map] at hs
    rcases hs with (⟨h, hh, rfl⟩ | ⟨h, hh, rfl⟩) | ⟨h, hh, rfl⟩
    · exact ⟨1, by simp, h, hh, rfl⟩
    · exact ⟨2, by simp, h, hh, rfl⟩
    · exact ⟨3, by simp, h, hh, rfl⟩

/-- Witness for C3's amended theorem on the concrete collection. -/
theorem collection_three_pages_appends_twelve_witness :
    (load_urls_from_collection collEnvDup).2 = true ∧
    (load_urls_from_collection collEnvDup).1.length = 12 :=
  ⟨(collection_three_pages_appends_twelve collEnvDup (fun _ => rfl) (by decide)
      (by decide) (by decide) (by decide)).1,
   (collection_three_pages_appends_twelve collEnvDup (fun _ => rfl) (by decide)
      (by decide) (by decide) (by decide)).2.1⟩

/-- A captured page image: the only attributes the validation step of
`load_all` reads are `img.width` and `img.height`. -/
structure Image where
  width : Nat
  height : Nat
deriving DecidableEq, Repr

/-- Outcome of `waiting_loading_page` on a reader page: `ok`, or the
embedded iframe was missing (`NoSuchElementException`, downloader.py
line 481), or the wait for the marker element timed out
(`TimeoutException`, line 489).  The last two call `program_exit`. -/
inductive Sync
  | ok
  | frameMissing
  | timedOut
deriving DecidableEq, Repr

/-- Oracles describing everything the browser returns to `load_all`:
whether the index-page wait times out, the synchronization outcome for
each reader page (also given the `should_add_delay` flag), the rendered
index page source, the content canvas dimensions, the outer-minus-inner
window deltas read by `set_viewport_size`, the screenshot saved at the
current window size, and whether the canvas-dimension/resize scripts
raise `JavascriptException`. -/
structure Env where
  indexTimedOut : String → Bool
  readerSync : String → Nat → Bool → Sync
  source : String → String
  canvas : String → Nat → Image
  chrome : Nat × Nat
  shot : String → Nat → Nat × Nat → Image
  jsFault : String → Nat → Bool

/-- The configuration surface of `FDownloader` relevant to `load_all`:
`pack`, `viewport`, the optional item cap `_max`, and the initial
display size `default_display`. -/
structure Cfg where
  pack : Bool
  viewport : Bool
  maxItems : Option Nat
  defaultDisplay : Nat × Nat
deriving DecidableEq, Repr

/-- The filesystem state under the manga root directory: page files
`<manga>/<n>.png` with their image contents, item directories, and
`.cbz` archives. -/
structure FS where
  pages : List (String × Nat × Image)
  dirs : List String
  zips : List String
deriving DecidableEq, Repr

/-- The mutable state threaded through a run of `load_all`: filesystem,
current browser window size, the log of printed javascript faults, and
the two append-only outcome files. -/
structure RunState where
  fs : FS
  window : Nat × Nat
  jsLog : List (String × Nat)
  done : List String
  failed : List String
deriving DecidableEq, Repr

/-- Contents of the page file `<manga>/<n>.png`, when it exists. -/
def getPage (fs : FS) (manga : String) (n : Nat) : Option Image :=
  (fs.pages.find? (fun e => e.1 == manga && e.2.1 == n)).map (fun e => e.2.2)

/-- Test `os.path.isfile` for a page file. -/
def hasPage (fs : FS) (manga : String) (n : Nat) : Bool :=
  (getPage fs manga n).isSome

/-- Effect of `browser.save_screenshot(destination_file)`. -/
def addPage (fs : FS) (manga : String) (n : Nat) (img : Image) : FS :=
  { fs with pages := (manga, n, img) :: fs.pages }

/-- Effect of `os.mkdir(manga_folder)` guarded by `os.path.exists`
(downloader.py lines 265-266). -/
def mkdirManga (fs : FS) (manga : String) : FS :=
  if manga ∈ fs.dirs then fs else { fs with dirs := manga :: fs.dirs }

/-- Effect of creating the `.cbz` archive (downloader.py lines 331-336). -/
def addZip (fs : FS) (manga : String) : FS :=
  if manga ∈ fs.zips then fs else { fs with zips := manga :: fs.zips }

/-- Method `FDownloader.remove_manga_folder` (downloader.py lines
345-350): delete the page files `1.png .. count.png` that exist, then
`os.rmdir` the directory.  `none` models the `OSError` that `os.rmdir`
raises when files of that item outside `1..count` remain, which would
propagate out of `load_all` uncaught. -/
def remove_manga_folder (fs : FS) (manga : String) (count : Nat) : Option FS :=
  if (fs.pages.filter
      (fun e => !(e.1 == manga && decide (1 ≤ e.2.1) && decide (e.2.1 ≤ count)))).any
      (fun e => e.1 == manga) then none
  else some { fs with
    pages := fs.pages.filter
      (fun e => !(e.1 == manga && decide (1 ≤ e.2.1) && decide (e.2.1 ≤ count))),
    dirs := fs.dirs.filter (fun d => !(d == manga)) }

/-- Method `FDownloader.add_done` (downloader.py lines 352-356): append
the url to the done file. -/
def add_done (st : RunState) (url : String) : RunState :=
  { st with done := st.done ++ [url] }

/-- Method `FDownloader.add_failed` (downloader.py lines 358-362):
append the url to the fail file. -/
def add_failed (st : RunState) (url : String) : RunState :=
  { st with failed := st.failed ++ [url] }

/-- Whether the page file exists but fails the `FAIL_THRESHOLD` check
of the validation loop (downloader.py line 320). -/
def pageSmall (fs : FS) (manga : String) (n : Nat) : Bool :=
  match getPage fs manga n with
  | some img =>
    decide (img.width < FAIL_THRESHOLD) || decide (img.height < FAIL_THRESHOLD)
  | none => false

/-- The validation loop of `load_all` (downloader.py lines 315-322):
open every page file `1..count` and accumulate the failed flag.  `none`
models the uncaught exception `Image.open` raises when a page file is
missing. -/
def checkPages (fs : FS) (manga : String) : List Nat → Option Bool
  | [] => some false
  | n :: ns =>
    match getPage fs manga n with
    | none => none
    | some img =>
      match checkPages fs manga ns with
      | none => none
      | some b =>
        some (b || (decide (img.width < FAIL_THRESHOLD)
          || decide (img.height < FAIL_THRESHOLD)))

/-- Method `FDownloader.set_viewport_size` (downloader.py lines
221-234): the new window size adds the outer-minus-inner deltas to the
requested content size. -/
def set_viewport_size (env : Env) (width height : Nat) : Nat × Nat :=
  (env.chrome.1 + width, env.chrome.2 + height)

/-- The body of the page loop of `load_all` for one page that is not
yet on disk and whose synchronization succeeded (downloader.py lines
286-313): read the content canvas dimensions and resize the window (or
viewport), where a `JavascriptException` is caught, logged, and capture
proceeds at the current window size; then remove the top overlay layer
and save the screenshot. -/
def capturePage (cfg : Cfg) (env : Env) (url manga : String) (n : Nat)
    (st : RunState) : RunState :=
  if env.jsFault url n then
    { st with jsLog := st.jsLog ++ [(url, n)],
              fs := addPage st.fs manga n (env.shot url n st.window) }
  else
    let c := env.canvas url n
    let w := if cfg.viewport then set_viewport_size env c.width c.height
             else (c.width, c.height)
    { st with window := w, fs := addPage st.fs manga n (env.shot url n w) }

/-- The page loop of `load_all` (downloader.py lines 274-313) over the
remaining page numbers, with the `delay_before_fetching` flag: existing
page files are skipped (setting the flag), otherwise the reader page is
awaited and captured.  The boolean result is `false` when
`waiting_loading_page` called `program_exit` (missing iframe or
timeout), terminating the process with the state reached so far. -/
def fetchPagesAux (cfg : Cfg) (env : Env) (url manga : String) :
    List Nat → Bool → RunState → RunState × Bool
  | [], _, st => (st, true)
  | n :: ns, delay, st =>
    if hasPage st.fs manga n then fetchPagesAux cfg env url manga ns true st
    else
      match env.readerSync url n delay with
      | Sync.ok =>
        fetchPagesAux cfg env url manga ns false (capturePage cfg env url manga n st)
      | _ => (st, false)

/-- Outcome of processing one url of the queue: `proceed success`
continues with the next url (`success` meaning `add_done` was reached,
which is what the `urls_processed` counter counts), `exit` means the
process terminated. -/
inductive ItemOut
  | proceed (success : Bool)
  | exit
deriving DecidableEq, Repr

/-- Computation `url.split("/")[-1]` (downloader.py line 263). -/
def splitSlash : List Char → List (List Char)
  | [] => [[]]
  | c :: cs =>
    match splitSlash cs with
    | [] => [[]]
    | r :: rs => if c = '/' then [] :: r :: rs else (c :: r) :: rs

/-- The manga name extracted from a (sanitized) url. -/
def mangaNameOf (url : String) : String :=
  ⟨(splitSlash url.toList).getLastD []⟩

/-- The per-item body of the main loop of `load_all` (downloader.py
lines 255-343), starting after the blank-line skip and the
sanitization: navigate to the index page and await it (a timeout
exits), extract the page count (absence appends to the fail file and
proceeds), create the item directory, run the page loop, validate all
page files, and either quarantine the item (append to fail file, purge
artifacts, reinit the browser at the default display size) or archive
it when packing is enabled and append to the done file. -/
def processItem (cfg : Cfg) (env : Env) (url : String) (st : RunState) :
    RunState × ItemOut :=
  if env.indexTimedOut url then (st, ItemOut.exit)
  else
    match getPageCount (env.source url) with
    | none => (add_failed st url, ItemOut.proceed false)
    | some count =>
      match fetchPagesAux cfg env url (mangaNameOf url) (List.range' 1 count) true
          { st with fs := mkdirManga st.fs (mangaNameOf url) } with
      | (st2, false) => (st2, ItemOut.exit)
      | (st2, true) =>
        match checkPages st2.fs (mangaNameOf url) (List.range' 1 count) with
        | none => (st2, ItemOut.exit)
        | some true =>
          match remove_manga_folder (add_failed st2 url).fs (mangaNameOf url) count with
          | none => (add_failed st2 url, ItemOut.exit)
          | some fs2 =>
            ({ add_failed st2 url with fs := fs2, window := cfg.defaultDisplay },
              ItemOut.proceed false)
        | some false =>
          if cfg.pack then
            match remove_manga_folder (addZip st2.fs (mangaNameOf url))
                (mangaNameOf url) count with
            | none => ({ st2 with fs := addZip st2.fs (mangaNameOf url) }, ItemOut.exit)
            | some fs2 => (add_done { st2 with fs := fs2 } url, ItemOut.proceed true)
          else (add_done st2 url, ItemOut.proceed true)

/-- Result of a whole run: the queue was exhausted, the item cap
stopped the run (`break`), or `program_exit` (or an uncaught exception)
terminated the process; in the last two cases `rem` is the queue suffix
never looked at. -/
inductive RunResult
  | finished
  | capped (rem : List String)
  | exited (rem : List String)
deriving DecidableEq, Repr

/-- Test `not url.strip()` (downloader.py line 249). -/
def isBlank (s : String) : Bool :=
  s.toList.all (fun c => c.isWhitespace)

/-- The main loop of `FDownloader.load_all` (downloader.py lines
246-343) over the remaining queue, carrying the `urls_processed`
counter: blank entries are skipped, every other entry is sanitized and
processed, and after a success the optional cap is checked. -/
def loadAllAux (cfg : Cfg) (env : Env) :
    List String → Nat → RunState → RunState × RunResult
  | [], _, st => (st, RunResult.finished)
  | u :: rest, processed, st =>
    if isBlank u then loadAllAux cfg env rest processed st
    else
      match processItem cfg env (sanitize_url u) st with
      | (st2, ItemOut.exit) => (st2, RunResult.exited rest)
      | (st2, ItemOut.proceed false) => loadAllAux cfg env rest processed st2
      | (st2, ItemOut.proceed true) =>
        match cfg.maxItems with
        | some m =>
          if m ≤ processed + 1 then (st2, RunResult.capped rest)
          else loadAllAux cfg env rest (processed + 1) st2
        | none => loadAllAux cfg env rest (processed + 1) st2

/-- Method `FDownloader.load_all` (downloader.py lines 236-343): set
the window to the default display, then run the main loop over the
queue with empty outcome logs (the done and fail files are append-only;
the state records exactly what this run appends). -/
def load_all (cfg : Cfg) (env : Env) (urls : List String) (fs : FS) :
    RunState × RunResult :=
  loadAllAux cfg env urls 0
    { fs := fs, window := cfg.defaultDisplay, jsLog := [], done := [], failed := [] }

/-- The freshly saved screenshot is the page file's content. -/
theorem getPage_addPage_self (fs : FS) (manga : String) (n : Nat) (img : Image) :
    getPage (addPage fs manga n img) manga n = some img := by
  have h : ((manga, n, img).1 == manga && (manga, n, img).2.1 == n) = true := by simp
  simp [getPage, addPage, List.find?_cons_of_pos _ h]

/-- Saving a different page number leaves a page file's content unchanged. -/
theorem getPage_addPage_ne (fs : FS) (manga : String) (n k : Nat) (img : Image)
    (h : n ≠ k) :
    getPage (addPage fs manga n img) manga k = getPage fs manga k := by
  have hb : (n == k) = false := by simpa using h
  simp [getPage, addPage, List.find?, hb]

/-- An entry of the page list witnesses that the page file exists. -/
theorem hasPage_of_mem (fs : FS) (manga : String) (e : String × Nat × Image)
    (he : e ∈ fs.pages) (hm : e.1 = manga) : hasPage fs manga e.2.1 = true := by
  have : (fs.pages.find? (fun x => x.1 == manga && x.2.1 == e.2.1)).isSome = true := by
    rw [List.find?_isSome]
    exact ⟨e, he, by simp [hm]⟩
  simpa [hasPage, getPage] using this

/-- Creating the item directory changes nothing but the directory list. -/
theorem mkdirManga_pages (fs : FS) (manga : String) :
    (mkdirManga fs manga).pages = fs.pages := by
  unfold mkdirManga; split <;> rfl

/-- Creating the item directory records it. -/
theorem mkdirManga_mem (fs : FS) (manga : String) :
    manga ∈ (mkdirManga fs manga).dirs := by
  unfold mkdirManga; split
  · assumption
  · exact List.mem_cons_self _ _

/-- Creating the item directory does not touch the archives. -/
theorem mkdirManga_zips (fs : FS) (manga : String) :
    (mkdirManga fs manga).zips = fs.zips := by
  unfold mkdirManga; split <;> rfl

/-- Creating the archive records it. -/
theorem addZip_mem (fs : FS) (manga : String) :
    manga ∈ (addZip fs manga).zips := by
  unfold addZip; split
  · assumption
  · exact List.mem_cons_self _ _

/-- Creating the archive does not touch the page files. -/
theorem addZip_pages (fs : FS) (manga : String) :
    (addZip fs manga).pages = fs.pages := by
  unfold addZip; split <;> rfl

/-- Capturing one page touches only the filesystem, the window and the
javascript-fault log: the outcome lists, the directory list and the
archive list are unchanged, and the page list gains exactly one entry
for the captured page number. -/
theorem capturePage_shape (cfg : Cfg) (env : Env) (url manga : String) (n : Nat)
    (st : RunState) :
    (capturePage cfg env url manga n st).done = st.done ∧
    (capturePage cfg env url manga n st).failed = st.failed ∧
    (capturePage cfg env url manga n st).fs.dirs = st.fs.dirs ∧
    (capturePage cfg env url manga n st).fs.zips = st.fs.zips ∧
    ∃ img, (capturePage cfg env url manga n st).fs.pages = (manga, n, img) :: st.fs.pages := by
  unfold capturePage
  split
  · exact ⟨rfl, rfl, rfl, rfl, env.shot url n st.window, rfl⟩
  · exact ⟨rfl, rfl, rfl, rfl, _, rfl⟩

/-- The page loop never touches the outcome lists, the directory list
or the archive list. -/
theorem fetchPagesAux_frame (cfg : Cfg) (env : Env) (url manga : String) :
    ∀ (ns : List Nat) (delay : Bool) (st : RunState),
      (fetchPagesAux cfg env url manga ns delay st).1.done = st.done ∧
      (fetchPagesAux cfg env url manga ns delay st).1.failed = st.failed ∧
      (fetchPagesAux cfg env url manga ns delay st).1.fs.dirs = st.fs.dirs ∧
      (fetchPagesAux cfg env url manga ns delay st).1.fs.zips = st.fs.zips := by
  intro ns
  induction ns with
  | nil => intro delay st; exact ⟨rfl, rfl, rfl, rfl⟩
  | cons n ns ih =>
    intro delay st
    unfold fetchPagesAux
    split
    · exact ih true st
    · split
      · obtain ⟨h1, h2, h3, h4, _⟩ := capturePage_shape cfg env url manga n st
        obtain ⟨g1, g2, g3, g4⟩ := ih false (capturePage cfg env url manga n st)
        exact ⟨g1.trans h1, g2.trans h2, g3.trans h3, g4.trans h4⟩
      · exact ⟨rfl, rfl, rfl, rfl⟩

/-- The page loop preserves the content of every page file that already
exists (existing pages are skipped, and captures write other page
numbers only). -/
theorem fetchPagesAux_keeps (cfg : Cfg) (env : Env) (url manga : String) :
    ∀ (ns : List Nat) (delay : Bool) (st : RunState) (k : Nat) (img : Image),
      getPage st.fs manga k = some img →
      getPage (fetchPagesAux cfg env url manga ns delay st).1.fs manga k = some img := by
  intro ns
  induction ns with
  | nil => intro delay st k img h; exact h
  | cons n ns ih =>
    intro delay st k img h
    unfold fetchPagesAux
    split
    · exact ih true st k img h
    · next hmiss =>
      split
      · apply ih false (capturePage cfg env url manga n st) k img
        have hne : n ≠ k := by
          intro he
          rw [he] at hmiss
          simp [hasPage, h] at hmiss
        obtain ⟨-, -, -, -, img2, hp⟩ := capturePage_shape cfg env url manga n st
        have : getPage (capturePage cfg env url manga n st).fs manga k
            = getPage (addPage st.fs manga n img2) manga k := by
          simp [getPage, addPage, hp]
        rw [this, getPage_addPage_ne _ _ _ _ _ hne, h]
      · exact h

/-- After a page loop that ran to completion, every listed page file
exists. -/
theorem fetchPagesAux_all (cfg : Cfg) (env : Env) (url manga : String) :
    ∀ (ns : List Nat) (delay : Bool) (st st2 : RunState),
      fetchPagesAux cfg env url manga ns delay st = (st2, true) →
      ∀ n ∈ ns, hasPage st2.fs manga n = true := by
  intro ns
  induction ns with
  | nil => intro delay st st2 _ n hn; cases hn
  | cons m ns ih =>
    intro delay st st2 heq n hn
    rw [fetchPagesAux] at heq
    split at heq
    · next hhas =>
      rcases List.mem_cons.mp hn with rfl | hn2
      · obtain ⟨img, himg⟩ := Option.isSome_iff_exists.mp (by simpa [hasPage] using hhas)
        have := fetchPagesAux_keeps cfg env url manga ns true st n img himg
        rw [heq] at this
        simp [hasPage, this]
      · exact ih true st st2 heq n hn2
    · split at heq
      · rcases List.mem_cons.mp hn with rfl | hn2
        · obtain ⟨-, -, -, -, img2, hp⟩ := capturePage_shape cfg env url manga n st
          have hcap : getPage (capturePage cfg env url manga n st).fs manga n = some img2 := by
            simp [getPage, hp, List.find?]
          have := fetchPagesAux_keeps cfg env url manga ns false
            (capturePage cfg env url manga n st) n img2 hcap
          rw [heq] at this
          simp [hasPage, this]
        · exact ih false _ st2 heq n hn2
      · cases heq

/-- Every page-list entry after the page loop was either present before
the loop or written by it, at one of the listed page numbers. -/
theorem fetchPagesAux_adds (cfg : Cfg) (env : Env) (url manga : String) :
    ∀ (ns : List Nat) (delay : Bool) (st st2 : RunState) (b : Bool),
      fetchPagesAux cfg env url manga ns delay st = (st2, b) →
      ∀ e ∈ st2.fs.pages, e ∈ st.fs.pages ∨ (e.1 = manga ∧ e.2.1 ∈ ns) := by
  intro ns
  induction ns with
  | nil =>
    intro delay st st2 b heq e he
    cases heq
    exact Or.inl he
  | cons n ns ih =>
    intro delay st st2 b heq e he
    rw [fetchPagesAux] at heq
    split at heq
    · rcases ih true st st2 b heq e he with h | h
      · exact Or.inl h
      · exact Or.inr ⟨h.1, List.mem_cons_of_mem _ h.2⟩
    · split at heq
      · rcases ih false _ st2 b heq e he with h | h
        · obtain ⟨-, -, -, -, img2, hp⟩ := capturePage_shape cfg env url manga n st
          rw [hp] at h
          rcases List.mem_cons.mp h with rfl | h2
          · exact Or.inr ⟨rfl, List.mem_cons_self _ _⟩
          · exact Or.inl h2
        · exact Or.inr ⟨h.1, List.mem_cons_of_mem _ h.2⟩
      · cases heq
        exact Or.inl he

/-- When every listed page file exists, the validation loop returns the
disjunction of the per-page undersize checks. -/
theorem checkPages_eq_any (fs : FS) (manga : String) :
    ∀ ns : List Nat, (∀ n ∈ ns, hasPage fs manga n = true) →
      checkPages fs manga ns = some (ns.any (fun n => pageSmall fs manga n)) := by
  intro ns
  induction ns with
  | nil => intro _; rfl
  | cons n ns ih =>
    intro h
    obtain ⟨img, himg⟩ := Option.isSome_iff_exists.mp
      (by simpa [hasPage] using h n (List.mem_cons_self _ _))
    rw [checkPages, himg, ih (fun m hm => h m (List.mem_cons_of_mem _ hm))]
    simp [List.any_cons, pageSmall, himg, Bool.or_comm]

/-- When every page file of the item lies in `1..count`, `os.rmdir`
succeeds and the removal purges every page file of the item, its
directory, and leaves the archives untouched. -/
theorem remove_manga_folder_some (fs : FS) (manga : String) (count : Nat)
    (h : ∀ e ∈ fs.pages, e.1 = manga → 1 ≤ e.2.1 ∧ e.2.1 ≤ count) :
    ∃ fs2, remove_manga_folder fs manga count = some fs2 ∧
      (∀ n, hasPage fs2 manga n = false) ∧
      manga ∉ fs2.dirs ∧ fs2.zips = fs.zips := by
  have hflt : ∀ e ∈ fs.pages.filter
      (fun e => !(e.1 == manga && decide (1 ≤ e.2.1) && decide (e.2.1 ≤ count))),
      e.1 ≠ manga := by
    intro e he heq
    obtain ⟨hmem, hpass⟩ := List.mem_filter.mp he
    obtain ⟨h1, h2⟩ := h e hmem heq
    have d1 : decide (1 ≤ e.2.1) = true := by simp [h1]
    have d2 : decide (e.2.1 ≤ count) = true := by simp [h2]
    rw [heq] at hpass
    simp [d1, d2] at hpass
  have hany : (fs.pages.filter
      (fun e => !(e.1 == manga && decide (1 ≤ e.2.1) && decide (e.2.1 ≤ count)))).any
      (fun e => e.1 == manga) = false := by
    rw [List.any_eq_false]
    intro e he
    exact (by simpa using hflt e he)
  have hrm : remove_manga_folder fs manga count = some { fs with
      pages := fs.pages.filter
        (fun e => !(e.1 == manga && decide (1 ≤ e.2.1) && decide (e.2.1 ≤ count))),
      dirs := fs.dirs.filter (fun d => !(d == manga)) } := by
    unfold remove_manga_folder
    rw [hany]
    simp
  refine ⟨_, hrm, ?_, ?_, rfl⟩
  · intro n
    have hfind : (List.find? (fun x => x.1 == manga && x.2.1 == n)
        (fs.pages.filter
          (fun e => !(e.1 == manga && decide (1 ≤ e.2.1) && decide (e.2.1 ≤ count)))))
        = none := by
      rw [List.find?_eq_none]
      intro e he
      have hne := hflt e he
      simp [hne]
    unfold hasPage getPage
    dsimp only
    rw [hfind]
    rfl
  · intro hmem
    obtain ⟨-, hpass⟩ := List.mem_filter.mp hmem
    simp at hpass

/-- Characterization of `processItem` up to the validation step: with a
successful index wait, a found page count and a page loop that ran to
completion, the item's outcome is decided by the validation loop over
the state the page loop produced. -/
theorem processItem_eq_of_fetch (cfg : Cfg) (env : Env) (url : String)
    (st st2 : RunState) (count : Nat)
    (hidx : env.indexTimedOut url = false)
    (hcount : getPageCount (env.source url) = some count)
    (hfetch : fetchPagesAux cfg env url (mangaNameOf url) (List.range' 1 count) true
      { st with fs := mkdirManga st.fs (mangaNameOf url) } = (st2, true)) :
    processItem cfg env url st =
      match checkPages st2.fs (mangaNameOf url) (List.range' 1 count) with
      | none => (st2, ItemOut.exit)
      | some true =>
        match remove_manga_folder (add_failed st2 url).fs (mangaNameOf url) count with
        | none => (add_failed st2 url, ItemOut.exit)
        | some fs2 =>
          ({ add_failed st2 url with fs := fs2, window := cfg.defaultDisplay },
            ItemOut.proceed false)
      | some false =>
        if cfg.pack then
          match remove_manga_folder (addZip st2.fs (mangaNameOf url))
              (mangaNameOf url) count with
          | none => ({ st2 with fs := addZip st2.fs (mangaNameOf url) }, ItemOut.exit)
          | some fs2 => (add_done { st2 with fs := fs2 } url, ItemOut.proceed true)
        else (add_done st2 url, ItemOut.proceed true) := by
  unfold processItem
  rw [if_neg (by simp [hidx]), hcount]
  dsimp only
  rw [hfetch]

/-- The outcome lists after the page loop are those before it. -/
theorem fetch_state_frame (cfg : Cfg) (env : Env) (url : String)
    (st st2 : RunState) (count : Nat) (b : Bool)
    (hfetch : fetchPagesAux cfg env url (mangaNameOf url) (List.range' 1 count) true
      { st with fs := mkdirManga st.fs (mangaNameOf url) } = (st2, b)) :
    st2.done = st.done ∧ st2.failed = st.failed ∧
    st2.fs.dirs = (mkdirManga st.fs (mangaNameOf url)).dirs ∧
    st2.fs.zips = st.fs.zips := by
  have h := fetchPagesAux_frame cfg env url (mangaNameOf url)
    (List.range' 1 count) true { st with fs := mkdirManga st.fs (mangaNameOf url) }
  rw [hfetch] at h
  exact ⟨h.1, h.2.1, h.2.2.1, h.2.2.2.trans (mkdirManga_zips st.fs (mangaNameOf url))⟩

/-- Appending behaviour of one item: a `proceed true` outcome appends
the url to the done list and nothing to the fail list; a `proceed
false` outcome appends the url to the fail list and nothing to the done
list. -/
theorem processItem_out (cfg : Cfg) (env : Env) (url : String) (st : RunState) :
    ((processItem cfg env url st).2 = ItemOut.proceed true →
      (processItem cfg env url st).1.done = st.done ++ [url] ∧
      (processItem cfg env url st).1.failed = st.failed) ∧
    ((processItem cfg env url st).2 = ItemOut.proceed false →
      (processItem cfg env url st).1.done = st.done ∧
      (processItem cfg env url st).1.failed = st.failed ++ [url]) := by
  unfold processItem
  split
  · exact ⟨fun h => by simp at h, fun h => by simp at h⟩
  · split
    · exact ⟨fun h => by simp at h, fun _ => ⟨rfl, rfl⟩⟩
    · next count hcount =>
      split
      · exact ⟨fun h => by simp at h, fun h => by simp at h⟩
      · next st2 heq =>
        have hfr := fetch_state_frame cfg env url st st2 count true heq
        split
        · exact ⟨fun h => by simp at h, fun h => by simp at h⟩
        · split
          · exact ⟨fun h => by simp at h, fun h => by simp at h⟩
          · exact ⟨fun h => by simp at h,
              fun _ => ⟨by simp [add_failed, hfr.1], by simp [add_failed, hfr.2.1]⟩⟩
        · split
          · split
            · exact ⟨fun h => by simp at h, fun h => by simp at h⟩
            · exact ⟨fun _ => ⟨by simp [add_done, hfr.1], by simp [add_done, hfr.2.1]⟩,
                fun h => by simp at h⟩
          · exact ⟨fun _ => ⟨by simp [add_done, hfr.1], by simp [add_done, hfr.2.1]⟩,
              fun h => by simp at h⟩

/-- Appending behaviour of one item whose processing exits the process:
the done list is unchanged and the fail list gained at most this url. -/
theorem processItem_exit_out (cfg : Cfg) (env : Env) (url : String) (st : RunState) :
    (processItem cfg env url st).2 = ItemOut.exit →
      (processItem cfg env url st).1.done = st.done ∧
      ((processItem cfg env url st).1.failed = st.failed ∨
        (processItem cfg env url st).1.failed = st.failed ++ [url]) := by
  unfold processItem
  split
  · exact fun _ => ⟨rfl, Or.inl rfl⟩
  · split
    · exact fun h => by simp at h
    · next count hcount =>
      split
      · next st2 heq =>
        have hfr := fetch_state_frame cfg env url st st2 count false heq
        exact fun _ => ⟨hfr.1, Or.inl hfr.2.1⟩
      · next st2 heq =>
        have hfr := fetch_state_frame cfg env url st st2 count true heq
        split
        · exact fun _ => ⟨hfr.1, Or.inl hfr.2.1⟩
        · split
          · exact fun _ => ⟨by simp [add_failed, hfr.1],
              Or.inr (by simp [add_failed, hfr.2.1])⟩
          · exact fun h => by simp at h
        · split
          · split
            · exact fun _ => ⟨hfr.1, Or.inl hfr.2.1⟩
            · exact fun h => by simp at h
          · exact fun h => by simp at h

/-- When every page file of the item present before the run lies in
`1..count`, every page file of the item after the page loop lies in
`1..count` as well (the loop writes the listed page numbers only). -/
theorem fetch_pages_bounded (cfg : Cfg) (env : Env) (url : String)
    (st st2 : RunState) (count : Nat) (b : Bool)
    (hfetch : fetchPagesAux cfg env url (mangaNameOf url) (List.range' 1 count) true
      { st with fs := mkdirManga st.fs (mangaNameOf url) } = (st2, b))
    (hstray : ∀ n : Nat, hasPage st.fs (mangaNameOf url) n = true →
      n ∈ List.range' 1 count) :
    ∀ e ∈ st2.fs.pages, e.1 = mangaNameOf url → 1 ≤ e.2.1 ∧ e.2.1 ≤ count := by
  intro e he hm
  rcases fetchPagesAux_adds cfg env url (mangaNameOf url) (List.range' 1 count) true
      { st with fs := mkdirManga st.fs (mangaNameOf url) } st2 b hfetch e he with h | h
  · have h2 : ({ st with fs := mkdirManga st.fs (mangaNameOf url) } : RunState).fs.pages
        = st.fs.pages := mkdirManga_pages _ _
    rw [h2] at h
    have h3 := hstray _ (hasPage_of_mem st.fs _ e h hm)
    have h4 := List.mem_range'_1.mp h3
    omega
  · have h4 := List.mem_range'_1.mp h.2
    omega

/-- When validation passes, the item is recorded done: nothing is
appended to the fail list, the url is appended to the done list, the
loop proceeds counting a success, and the artifacts persist (the
archive when packing, the page files and directory otherwise). -/
theorem processItem_success (cfg : Cfg) (env : Env) (url : String)
    (st st2 : RunState) (count : Nat)
    (hidx : env.indexTimedOut url = false)
    (hcount : getPageCount (env.source url) = some count)
    (hfetch : fetchPagesAux cfg env url (mangaNameOf url) (List.range' 1 count) true
      { st with fs := mkdirManga st.fs (mangaNameOf url) } = (st2, true))
    (hchk : checkPages st2.fs (mangaNameOf url) (List.range' 1 count) = some false)
    (hstray : ∀ n : Nat, hasPage st.fs (mangaNameOf url) n = true →
      n ∈ List.range' 1 count) :
    (processItem cfg env url st).1.done = st.done ++ [url] ∧
    (processItem cfg env url st).1.failed = st.failed ∧
    (processItem cfg env url st).2 = ItemOut.proceed true ∧
    (cfg.pack = true → mangaNameOf url ∈ (processItem cfg env url st).1.fs.zips) ∧
    (cfg.pack = false → (processItem cfg env url st).1.fs = st2.fs) := by
  have hfr := fetch_state_frame cfg env url st st2 count true hfetch
  have hbound := fetch_pages_bounded cfg env url st st2 count true hfetch hstray
  rw [processItem_eq_of_fetch cfg env url st st2 count hidx hcount hfetch, hchk]
  dsimp only
  by_cases hp : cfg.pack = true
  · rw [if_pos hp]
    obtain ⟨fs2, hrm, hnp, hnd, hz⟩ := remove_manga_folder_some
      (addZip st2.fs (mangaNameOf url)) (mangaNameOf url) count
      (by intro e he hm
          rw [addZip_pages] at he
          exact hbound e he hm)
    rw [hrm]
    dsimp only
    refine ⟨by simp [add_done, hfr.1], by simp [add_done, hfr.2.1], rfl, ?_, ?_⟩
    · intro _
      show mangaNameOf url ∈ fs2.zips
      rw [hz]
      exact addZip_mem st2.fs (mangaNameOf url)
    · intro hfalse
      rw [hp] at hfalse
      cases hfalse
  · rw [if_neg hp]
    dsimp only
    exact ⟨by simp [add_done, hfr.1], by simp [add_done, hfr.2.1], rfl,
      fun h => absurd h hp, fun _ => rfl⟩

/-- When validation fails, the url is appended to the fail list and not
to the done list (whether or not the subsequent folder removal crashes
the process). -/
theorem processItem_failed (cfg : Cfg) (env : Env) (url : String)
    (st st2 : RunState) (count : Nat)
    (hidx : env.indexTimedOut url = false)
    (hcount : getPageCount (env.source url) = some count)
    (hfetch : fetchPagesAux cfg env url (mangaNameOf url) (List.range' 1 count) true
      { st with fs := mkdirManga st.fs (mangaNameOf url) } = (st2, true))
    (hchk : checkPages st2.fs (mangaNameOf url) (List.range' 1 count) = some true) :
    (processItem cfg env url st).1.failed = st.failed ++ [url] ∧
    (processItem cfg env url st).1.done = st.done := by
  have hfr := fetch_state_frame cfg env url st st2 count true hfetch
  rw [processItem_eq_of_fetch cfg env url st st2 count hidx hcount hfetch, hchk]
  dsimp only
  cases hrm : remove_manga_folder (add_failed st2 url).fs (mangaNameOf url) count with
  | none =>
    exact ⟨by simp [add_failed, hfr.2.1], by simp [add_failed, hfr.1]⟩
  | some fs2 =>
    exact ⟨by simp [add_failed, hfr.2.1], by simp [add_failed, hfr.1]⟩

/-- When validation fails and the item's page files all lie in
`1..count`, the quarantine completes: the loop proceeds with the next
item, and no artifact of the item persists — no page file, no
directory, no archive. -/
theorem processItem_failed_clean (cfg : Cfg) (env : Env) (url : String)
    (st st2 : RunState) (count : Nat)
    (hidx : env.indexTimedOut url = false)
    (hcount : getPageCount (env.source url) = some count)
    (hfetch : fetchPagesAux cfg env url (mangaNameOf url) (List.range' 1 count) true
      { st with fs := mkdirManga st.fs (mangaNameOf url) } = (st2, true))
    (hchk : checkPages st2.fs (mangaNameOf url) (List.range' 1 count) = some true)
    (hstray : ∀ n : Nat, hasPage st.fs (mangaNameOf url) n = true →
      n ∈ List.range' 1 count)
    (hnozip : mangaNameOf url ∉ st.fs.zips) :
    (processItem cfg env url st).2 = ItemOut.proceed false ∧
    (∀ n, hasPage (processItem cfg env url st).1.fs (mangaNameOf url) n = false) ∧
    mangaNameOf url ∉ (processItem cfg env url st).1.fs.dirs ∧
    mangaNameOf url ∉ (processItem cfg env url st).1.fs.zips := by
  have hfr := fetch_state_frame cfg env url st st2 count true hfetch
  have hbound := fetch_pages_bounded cfg env url st st2 count true hfetch hstray
  obtain ⟨fs2, hrm, hnp, hnd, hz⟩ :=
    remove_manga_folder_some st2.fs (mangaNameOf url) count hbound
  have hrm2 : remove_manga_folder (add_failed st2 url).fs (mangaNameOf url) count
      = some fs2 := hrm
  rw [processItem_eq_of_fetch cfg env url st st2 count hidx hcount hfetch, hchk]
  dsimp only
  rw [hrm2]
  dsimp only
  refine ⟨rfl, ?_, ?_, ?_⟩
  · intro n
    exact hnp n
  · exact hnd
  · show mangaNameOf url ∉ fs2.zips
    rw [hz, hfr.2.2.2]
    exact hnozip

/-- Creating a directory never changes any page file. -/
theorem getPage_mkdir (fs : FS) (manga2 manga : String) (n : Nat) :
    getPage (mkdirManga fs manga2) manga n = getPage fs manga n := by
  unfold mkdirManga
  split <;> rfl

/-- One step of the main loop on a non-blank queue entry. -/
theorem loadAllAux_cons_nonblank (cfg : Cfg) (env : Env) (u : String)
    (rest : List String) (processed : Nat) (st : RunState)
    (h : isBlank u = false) :
    loadAllAux cfg env (u :: rest) processed st =
      match processItem cfg env (sanitize_url u) st with
      | (st2, ItemOut.exit) => (st2, RunResult.exited rest)
      | (st2, ItemOut.proceed false) => loadAllAux cfg env rest processed st2
      | (st2, ItemOut.proceed true) =>
        match cfg.maxItems with
        | some m =>
          if m ≤ processed + 1 then (st2, RunResult.capped rest)
          else loadAllAux cfg env rest (processed + 1) st2
        | none => loadAllAux cfg env rest (processed + 1) st2 := by
  rw [loadAllAux, if_neg (by simp [h])]

/-- C6: for every work item whose index page source contains no page
count marker, the pipeline appends the item's (sanitized) identifier to
the failed list, creates no page artifact and no item directory (the
filesystem component of the state is untouched), and continues the main
loop with the next item — the failure is local to the one item, not
fatal to the run. -/
theorem page_count_missing_quarantines (cfg : Cfg) (env : Env) (u : String)
    (rest : List String) (processed : Nat) (st : RunState)
    (hnb : isBlank u = false)
    (hidx : env.indexTimedOut (sanitize_url u) = false)
    (hnone : getPageCount (env.source (sanitize_url u)) = none) :
    loadAllAux cfg env (u :: rest) processed st =
      loadAllAux cfg env rest processed (add_failed st (sanitize_url u)) := by
  have hpi : processItem cfg env (sanitize_url u) st
      = (add_failed st (sanitize_url u), ItemOut.proceed false) := by
    unfold processItem
    rw [if_neg (by simp [hidx]), hnone]
  rw [loadAllAux_cons_nonblank cfg env u rest processed st hnb, hpi]

/-- Witness for C6: on an index page without the marker the loop
records the failure and moves on with an unchanged filesystem. -/
theorem page_count_missing_quarantines_witness :
    isBlank "a" = false ∧
    loadAllAux (Cfg.mk false false none (1440, 2560))
        (Env.mk (fun _ => false) (fun _ _ _ => Sync.ok) (fun _ => "no marker")
          (fun _ _ => Image.mk 1200 1700) (0, 0)
          (fun _ _ w => Image.mk w.1 w.2) (fun _ _ => false))
        ["a", "b"] 0 (RunState.mk (FS.mk [] [] []) (1440, 2560) [] [] []) =
      loadAllAux (Cfg.mk false false none (1440, 2560))
        (Env.mk (fun _ => false) (fun _ _ _ => Sync.ok) (fun _ => "no marker")
          (fun _ _ => Image.mk 1200 1700) (0, 0)
          (fun _ _ w => Image.mk w.1 w.2) (fun _ _ => false))
        ["b"] 0
        (add_failed (RunState.mk (FS.mk [] [] []) (1440, 2560) [] [] [])
          (sanitize_url "a")) :=
  ⟨by decide,
    page_count_missing_quarantines _ _ "a" ["b"] 0 _ (by decide) (by decide) (by decide)⟩

/-- C8: a fatal page-load synchronization outcome — the index-page wait
timing out, or the reader-page wait finding no iframe or timing out
(which makes the page loop abort) — terminates the whole run at once:
the result is `exited` with the rest of the queue untouched, and the
outcome lists hold exactly what was already flushed before this item. -/
theorem sync_fault_aborts_run (cfg : Cfg) (env : Env) (u : String)
    (rest : List String) (processed : Nat) (st st2 : RunState) (count : Nat)
    (hnb : isBlank u = false)
    (hcase :
      env.indexTimedOut (sanitize_url u) = true ∨
      (env.indexTimedOut (sanitize_url u) = false ∧
        getPageCount (env.source (sanitize_url u)) = some count ∧
        fetchPagesAux cfg env (sanitize_url u) (mangaNameOf (sanitize_url u))
          (List.range' 1 count) true
          { st with fs := mkdirManga st.fs (mangaNameOf (sanitize_url u)) }
          = (st2, false))) :
    (loadAllAux cfg env (u :: rest) processed st).2 = RunResult.exited rest ∧
    (loadAllAux cfg env (u :: rest) processed st).1.done = st.done ∧
    (loadAllAux cfg env (u :: rest) processed st).1.failed = st.failed := by
  rcases hcase with h | ⟨hidx, hcount, hfetch⟩
  · have hpi : processItem cfg env (sanitize_url u) st = (st, ItemOut.exit) := by
      unfold processItem
      rw [if_pos h]
    rw [loadAllAux_cons_nonblank cfg env u rest processed st hnb, hpi]
    exact ⟨rfl, rfl, rfl⟩
  · have hpi : processItem cfg env (sanitize_url u) st = (st2, ItemOut.exit) := by
      unfold processItem
      rw [if_neg (by simp [hidx]), hcount]
      dsimp only
      rw [hfetch]
    have hfr := fetch_state_frame cfg env (sanitize_url u) st st2 count false hfetch
    rw [loadAllAux_cons_nonblank cfg env u rest processed st hnb, hpi]
    exact ⟨rfl, hfr.1, hfr.2.1⟩

/-- Witness for C8: an index-page synchronization timeout on the first
item aborts the run, leaving both outcome lists as they were. -/
theorem sync_fault_aborts_run_witness :
    (loadAllAux (Cfg.mk false false none (1440, 2560))
        (Env.mk (fun _ => true) (fun _ _ _ => Sync.ok) (fun _ => "")
          (fun _ _ => Image.mk 1200 1700) (0, 0)
          (fun _ _ w => Image.mk w.1 w.2) (fun _ _ => false))
        ["a", "b"] 0 (RunState.mk (FS.mk [] [] []) (1440, 2560) [] ["olddone"] ["oldfail"])).2
      = RunResult.exited ["b"] ∧
    (loadAllAux (Cfg.mk false false none (1440, 2560))
        (Env.mk (fun _ => true) (fun _ _ _ => Sync.ok) (fun _ => "")
          (fun _ _ => Image.mk 1200 1700) (0, 0)
          (fun _ _ w => Image.mk w.1 w.2) (fun _ _ => false))
        ["a", "b"] 0 (RunState.mk (FS.mk [] [] []) (1440, 2560) [] ["olddone"] ["oldfail"])).1.done
      = ["olddone"] :=
  ⟨(sync_fault_aborts_run _ _ "a" ["b"] 0 _
      (RunState.mk (FS.mk [] [] []) (1440, 2560) [] ["olddone"] ["oldfail"]) 0
      (by decide) (Or.inl (by decide))).1,
   (sync_fault_aborts_run _ _ "a" ["b"] 0 _
      (RunState.mk (FS.mk [] [] []) (1440, 2560) [] ["olddone"] ["oldfail"]) 0
      (by decide) (Or.inl (by decide))).2.1⟩

/-- C9: a javascript fault while reading the content canvas dimensions
or resizing is caught: the fault is logged, the window keeps its
current size, the page is still captured (at the current window size),
and the page loop simply continues with the next page — no retry, no
abort of the item or of the run. -/
theorem js_fault_nonfatal (cfg : Cfg) (env : Env) (url manga : String)
    (n : Nat) (ns : List Nat) (delay : Bool) (st : RunState)
    (hmiss : hasPage st.fs manga n = false)
    (hsync : env.readerSync url n delay = Sync.ok)
    (hfault : env.jsFault url n = true) :
    fetchPagesAux cfg env url manga (n :: ns) delay st =
      fetchPagesAux cfg env url manga ns false (capturePage cfg env url manga n st) ∧
    (capturePage cfg env url manga n st).window = st.window ∧
    (capturePage cfg env url manga n st).jsLog = st.jsLog ++ [(url, n)] ∧
    getPage (capturePage cfg env url manga n st).fs manga n
      = some (env.shot url n st.window) := by
  refine ⟨?_, ?_, ?_, ?_⟩
  · rw [fetchPagesAux, if_neg (by simp [hmiss]), hsync]
  · simp [capturePage, hfault]
  · simp [capturePage, hfault]
  · have hfs : (capturePage cfg env url manga n st).fs
        = addPage st.fs manga n (env.shot url n st.window) := by
      simp [capturePage, hfault]
    rw [hfs, getPage_addPage_self]

/-- Witness for C9 on a concrete faulting page. -/
theorem js_fault_nonfatal_witness :
    (capturePage (Cfg.mk false false none (1440, 2560))
        (Env.mk (fun _ => false) (fun _ _ _ => Sync.ok) (fun _ => "")
          (fun _ _ => Image.mk 1200 1700) (0, 0)
          (fun _ _ w => Image.mk w.1 w.2) (fun _ _ => true))
        "u" "m" 1 (RunState.mk (FS.mk [] [] []) (900, 800) [] [] [])).window
      = (900, 800) ∧
    (capturePage (Cfg.mk false false none (1440, 2560))
        (Env.mk (fun _ => false) (fun _ _ _ => Sync.ok) (fun _ => "")
          (fun _ _ => Image.mk 1200 1700) (0, 0)
          (fun _ _ w => Image.mk w.1 w.2) (fun _ _ => true))
        "u" "m" 1 (RunState.mk (FS.mk [] [] []) (900, 800) [] [] [])).jsLog
      = [("u", 1)] :=
  ⟨(js_fault_nonfatal _ _ "u" "m" 1 [2] true
      (RunState.mk (FS.mk [] [] []) (900, 800) [] [] [])
      (by decide) (by decide) (by decide)).2.1,
   (js_fault_nonfatal _ _ "u" "m" 1 [2] true
      (RunState.mk (FS.mk [] [] []) (900, 800) [] [] [])
      (by decide) (by decide) (by decide)).2.2.1⟩

/-- C1: for a work item processed to the validation step (index wait
succeeded, page count found, page loop ran to completion producing
state `st2`), if every page file of the item meets the fail threshold
the url is appended to the done list and the artifacts persist (the
archive when packaging is enabled, otherwise the directory with all its
page files); if at least one page file is undersized the url is
appended to the failed list and no artifact of the item persists: every
page file, the directory and any archive are absent — the directory is
never left partially materialized after the failure transition. -/
theorem validation_decides_outcome (cfg : Cfg) (env : Env) (url : String)
    (st st2 : RunState) (count : Nat)
    (hidx : env.indexTimedOut url = false)
    (hcount : getPageCount (env.source url) = some count)
    (hfetch : fetchPagesAux cfg env url (mangaNameOf url) (List.range' 1 count) true
      { st with fs := mkdirManga st.fs (mangaNameOf url) } = (st2, true))
    (hstray : ∀ n : Nat, hasPage st.fs (mangaNameOf url) n = true →
      n ∈ List.range' 1 count)
    (hnozip : mangaNameOf url ∉ st.fs.zips) :
    ((∀ n ∈ List.range' 1 count, pageSmall st2.fs (mangaNameOf url) n = false) →
      (processItem cfg env url st).1.done = st.done ++ [url] ∧
      (processItem cfg env url st).1.failed = st.failed ∧
      (processItem cfg env url st).2 = ItemOut.proceed true ∧
      (cfg.pack = true → mangaNameOf url ∈ (processItem cfg env url st).1.fs.zips) ∧
      (cfg.pack = false →
        mangaNameOf url ∈ (processItem cfg env url st).1.fs.dirs ∧
        ∀ n ∈ List.range' 1 count,
          hasPage (processItem cfg env url st).1.fs (mangaNameOf url) n = true)) ∧
    ((∃ n ∈ List.range' 1 count, pageSmall st2.fs (mangaNameOf url) n = true) →
      (processItem cfg env url st).1.failed = st.failed ++ [url] ∧
      (processItem cfg env url st).1.done = st.done ∧
      (processItem cfg env url st).2 = ItemOut.proceed false ∧
      (∀ n, hasPage (processItem cfg env url st).1.fs (mangaNameOf url) n = false) ∧
      mangaNameOf url ∉ (processItem cfg env url st).1.fs.dirs ∧
      mangaNameOf url ∉ (processItem cfg env url st).1.fs.zips) := by
  have hall := fetchPagesAux_all cfg env url (mangaNameOf url) (List.range' 1 count)
    true { st with fs := mkdirManga st.fs (mangaNameOf url) } st2 hfetch
  constructor
  · intro hbig
    have hchk : checkPages st2.fs (mangaNameOf url) (List.range' 1 count)
        = some false := by
      rw [checkPages_eq_any st2.fs (mangaNameOf url) (List.range' 1 count) hall]
      congr 1
      rw [List.any_eq_false]
      intro n hn
      simp [hbig n hn]
    obtain ⟨h1, h2, h3, h4, h5⟩ :=
      processItem_success cfg env url st st2 count hidx hcount hfetch hchk hstray
    refine ⟨h1, h2, h3, h4, fun hp => ?_⟩
    rw [h5 hp]
    constructor
    · have hfr := fetch_state_frame cfg env url st st2 count true hfetch
      rw [hfr.2.2.1]
      exact mkdirManga_mem st.fs (mangaNameOf url)
    · exact hall
  · intro hsmall
    have hchk : checkPages st2.fs (mangaNameOf url) (List.range' 1 count)
        = some true := by
      rw [checkPages_eq_any st2.fs (mangaNameOf url) (List.range' 1 count) hall]
      congr 1
      rw [List.any_eq_true]
      obtain ⟨n, hn, hs⟩ := hsmall
      exact ⟨n, hn, hs⟩
    obtain ⟨hf1, hf2⟩ :=
      processItem_failed cfg env url st st2 count hidx hcount hfetch hchk
    obtain ⟨hc1, hc2, hc3, hc4⟩ :=
      processItem_failed_clean cfg env url st st2 count hidx hcount hfetch hchk
        hstray hnozip
    exact ⟨hf1, hf2, hc1, hc2, hc3, hc4⟩

/-- C7: for a work item resumed with a page file already on disk, the
page loop keeps that file's content untouched (it is skipped, not
re-captured), yet the validation step still checks it together with
every other page of `1..N`: an undersized pre-existing page alone makes
the item be recorded failed, and only when all pages — the skipped one
included — pass the threshold is the item recorded done. -/
theorem resume_skips_but_revalidates (cfg : Cfg) (env : Env) (url : String)
    (st st2 : RunState) (count k : Nat) (img0 : Image)
    (hidx : env.indexTimedOut url = false)
    (hcount : getPageCount (env.source url) = some count)
    (hfetch : fetchPagesAux cfg env url (mangaNameOf url) (List.range' 1 count) true
      { st with fs := mkdirManga st.fs (mangaNameOf url) } = (st2, true))
    (hstray : ∀ n : Nat, hasPage st.fs (mangaNameOf url) n = true →
      n ∈ List.range' 1 count)
    (hnozip : mangaNameOf url ∉ st.fs.zips)
    (hk : k ∈ List.range' 1 count)
    (hpre : getPage st.fs (mangaNameOf url) k = some img0) :
    getPage st2.fs (mangaNameOf url) k = some img0 ∧
    ((img0.width < FAIL_THRESHOLD ∨ img0.height < FAIL_THRESHOLD) →
      (processItem cfg env url st).1.failed = st.failed ++ [url] ∧
      (processItem cfg env url st).2 = ItemOut.proceed false) ∧
    ((∀ n ∈ List.range' 1 count, pageSmall st2.fs (mangaNameOf url) n = false) →
      (processItem cfg env url st).1.done = st.done ++ [url] ∧
      (processItem cfg env url st).2 = ItemOut.proceed true) := by
  have hall := fetchPagesAux_all cfg env url (mangaNameOf url) (List.range' 1 count)
    true { st with fs := mkdirManga st.fs (mangaNameOf url) } st2 hfetch
  have hkeep := fetchPagesAux_keeps cfg env url (mangaNameOf url)
    (List.range' 1 count) true { st with fs := mkdirManga st.fs (mangaNameOf url) }
    k img0
    (by show getPage (mkdirManga st.fs (mangaNameOf url)) (mangaNameOf url) k
          = some img0
        rw [getPage_mkdir]
        exact hpre)
  rw [hfetch] at hkeep
  refine ⟨hkeep, ?_, ?_⟩
  · intro hsm
    have hps : pageSmall st2.fs (mangaNameOf url) k = true := by
      unfold pageSmall
      rw [hkeep]
      rcases hsm with h | h
      · simp [h]
      · simp [h]
    have hchk : checkPages st2.fs (mangaNameOf url) (List.range' 1 count)
        = some true := by
      rw [checkPages_eq_any st2.fs (mangaNameOf url) (List.range' 1 count) hall]
      congr 1
      rw [List.any_eq_true]
      exact ⟨k, hk, hps⟩
    obtain ⟨hf1, -⟩ :=
      processItem_failed cfg env url st st2 count hidx hcount hfetch hchk
    obtain ⟨hc1, -, -, -⟩ :=
      processItem_failed_clean cfg env url st st2 count hidx hcount hfetch hchk
        hstray hnozip
    exact ⟨hf1, hc1⟩
  · intro hbig
    have hchk : checkPages st2.fs (mangaNameOf url) (List.range' 1 count)
        = some false := by
      rw [checkPages_eq_any st2.fs (mangaNameOf url) (List.range' 1 count) hall]
      congr 1
      rw [List.any_eq_false]
      intro n hn
      simp [hbig n hn]
    obtain ⟨h1, -, h3, -, -⟩ :=
      processItem_success cfg env url st st2 count hidx hcount hfetch hchk hstray
    exact ⟨h1, h3⟩

/-- Configuration used by the concrete runs of the witnesses: no
packing, window resize mode, no item cap, default display 1440x2560. -/
def cfgW : Cfg := Cfg.mk false false none (1440, 2560)

/-- Benign environment used by the witnesses: no timeouts, no iframes
missing, an index page announcing 2 pages, a 1200x1700 content canvas,
screenshots exactly at the current window size, no javascript faults. -/
def envW : Env := Env.mk (fun _ => false) (fun _ _ _ => Sync.ok)
  (fun _ => "<div class=\"x\">2 pages</div>") (fun _ _ => Image.mk 1200 1700) (0, 0)
  (fun _ _ w => Image.mk w.1 w.2) (fun _ _ => false)

/-- Item url used by the witnesses. -/
def urlW : String := "https://www.fakku.net/hentai/foo"

/-- Pristine initial state used by the C1 witness. -/
def stW : RunState := RunState.mk (FS.mk [] [] []) (1440, 2560) [] [] []

/-- State after the page loop of the C1 witness: both pages captured at
the content canvas size. -/
def stW2 : RunState := RunState.mk
  (FS.mk [("foo", 2, Image.mk 1200 1700), ("foo", 1, Image.mk 1200 1700)] ["foo"] [])
  (1200, 1700) [] [] []

/-- Witness for C1: on the concrete benign run both captured pages meet
the threshold, so the identifier is appended to the done list and the
loop proceeds counting a success. -/
theorem validation_decides_outcome_witness :
    (processItem cfgW envW urlW stW).1.done = stW.done ++ [urlW] ∧
    (processItem cfgW envW urlW stW).2 = ItemOut.proceed true :=
  ⟨((validation_decides_outcome cfgW envW urlW stW stW2 2 (by decide) (by decide)
      (by decide) (fun n h => by simp [stW, hasPage, getPage] at h) (by decide)).1
      (by decide)).1,
   ((validation_decides_outcome cfgW envW urlW stW stW2 2 (by decide) (by decide)
      (by decide) (fun n h => by simp [stW, hasPage, getPage] at h) (by decide)).1
      (by decide)).2.2.1⟩

/-- Initial state of the C7 witness: page 1 of the item is already on
disk from a crashed previous run, undersized at 500x500. -/
def stP : RunState := RunState.mk
  (FS.mk [("foo", 1, Image.mk 500 500)] ["foo"] []) (1440, 2560) [] [] []

/-- State after the page loop of the C7 witness: page 1 was skipped and
keeps its undersized content, page 2 was captured at the canvas size. -/
def stP2 : RunState := RunState.mk
  (FS.mk [("foo", 2, Image.mk 1200 1700), ("foo", 1, Image.mk 500 500)] ["foo"] [])
  (1200, 1700) [] [] []

/-- Witness for C7: the resumed run skips the pre-existing undersized
page 1 (its content survives the page loop unchanged), yet validation
re-checks it and the item is recorded failed. -/
theorem resume_skips_but_revalidates_witness :
    getPage stP2.fs (mangaNameOf urlW) 1 = some (Image.mk 500 500) ∧
    (processItem cfgW envW urlW stP).1.failed = stP.failed ++ [urlW] :=
  ⟨(resume_skips_but_revalidates cfgW envW urlW stP stP2 2 1 (Image.mk 500 500)
      (by decide) (by decide) (by decide)
      (fun n h => by
        have hm : mangaNameOf urlW = "foo" := by decide
        rw [hm] at h
        by_cases hn : n = 1
        · rw [hn]; decide
        · have hb : (1 == n) = false := beq_eq_false_iff_ne.mpr (fun he => hn he.symm)
          simp [stP, hasPage, getPage, List.find?, hb] at h)
      (by decide) (by decide) (by decide)).1,
   ((resume_skips_but_revalidates cfgW envW urlW stP stP2 2 1 (Image.mk 500 500)
      (by decide) (by decide) (by decide)
      (fun n h => by
        have hm : mangaNameOf urlW = "foo" := by decide
        rw [hm] at h
        by_cases hn : n = 1
        · rw [hn]; decide
        · have hb : (1 == n) = false := beq_eq_false_iff_ne.mpr (fun he => hn he.symm)
          simp [stP, hasPage, getPage, List.find?, hb] at h)
      (by decide) (by decide) (by decide)).2.1 (by decide)).1⟩

/-- The identifier is a member of exactly one of the two lists. -/
def appendedToExactlyOne (id : String) (done failed : List String) : Prop :=
  (id ∈ done ∧ id ∉ failed) ∨ (id ∉ done ∧ id ∈ failed)

/-- Partition invariant of the main loop: provided no queue entry is
blank and no two entries re-sanitize to the same identifier, the run
appends suffixes `D` to the done list and `F` to the fail list, both
drawn from the sanitized entries, and each entry lands in exactly one
of them — except, when the item cap stopped the run, the entries never
reached, which land in neither. -/
theorem loadAllAux_partition (cfg : Cfg) (env : Env) :
    ∀ (urls : List String) (processed : Nat) (st : RunState),
      (∀ u ∈ urls, isBlank u = false) →
      (urls.map sanitize_url).Nodup →
      ∃ D F : List String,
        (loadAllAux cfg env urls processed st).1.done = st.done ++ D ∧
        (loadAllAux cfg env urls processed st).1.failed = st.failed ++ F ∧
        (∀ x ∈ D, x ∈ urls.map sanitize_url) ∧
        (∀ x ∈ F, x ∈ urls.map sanitize_url) ∧
        (∀ rem, (loadAllAux cfg env urls processed st).2 = RunResult.capped rem →
          ∀ x ∈ rem, x ∈ urls) ∧
        (∀ u ∈ urls,
          ((loadAllAux cfg env urls processed st).2 = RunResult.finished →
            appendedToExactlyOne (sanitize_url u) D F) ∧
          (∀ rem, (loadAllAux cfg env urls processed st).2 = RunResult.capped rem →
            (u ∉ rem → appendedToExactlyOne (sanitize_url u) D F) ∧
            (u ∈ rem → sanitize_url u ∉ D ∧ sanitize_url u ∉ F))) := by
  intro urls
  induction urls with
  | nil =>
    intro processed st _ _
    exact ⟨[], [], by simp [loadAllAux], by simp [loadAllAux], by simp, by simp,
      by intro rem h; simp [loadAllAux] at h, by simp⟩
  | cons u rest ih =>
    intro processed st hnb hnd
    have hbu : isBlank u = false := hnb u (List.mem_cons_self _ _)
    have hnb2 : ∀ v ∈ rest, isBlank v = false :=
      fun v hv => hnb v (List.mem_cons_of_mem _ hv)
    have hnd0 : sanitize_url u ∉ rest.map sanitize_url ∧
        (rest.map sanitize_url).Nodup := by
      rw [List.map_cons] at hnd
      exact List.nodup_cons.mp hnd
    have hnotin : ∀ v ∈ rest, sanitize_url v ≠ sanitize_url u := by
      intro v hv he
      exact hnd0.1 (he ▸ List.mem_map_of_mem sanitize_url hv)
    have hurest : u ∉ rest := fun hu => hnotin u hu rfl
    rw [loadAllAux_cons_nonblank cfg env u rest processed st hbu]
    rcases hpo : processItem cfg env (sanitize_url u) st with ⟨st2, out⟩
    cases out with
    | exit =>
      dsimp only
      obtain ⟨hd, hf⟩ := processItem_exit_out cfg env (sanitize_url u) st (by rw [hpo])
      rw [hpo] at hd hf
      dsimp only at hd hf
      rcases hf with hf | hf
      · refine ⟨[], [], ?_, ?_, ?_, ?_, ?_, ?_⟩
        · simpa using hd
        · simpa using hf
        · simp
        · simp
        · intro rem h
          cases h
        · intro u2 hu2
          exact ⟨fun h => (by cases h), fun rem h => by cases h⟩
      · refine ⟨[], [sanitize_url u], ?_, ?_, ?_, ?_, ?_, ?_⟩
        · simpa using hd
        · simpa using hf
        · simp
        · intro x hx
          rw [List.mem_singleton.mp hx, List.map_cons]
          exact List.mem_cons_self _ _
        · intro rem h
          cases h
        · intro u2 hu2
          exact ⟨fun h => (by cases h), fun rem h => by cases h⟩
    | proceed b =>
      cases b with
      | false =>
        dsimp only
        obtain ⟨hd, hf⟩ := (processItem_out cfg env (sanitize_url u) st).2 (by rw [hpo])
        rw [hpo] at hd hf
        dsimp only at hd hf
        obtain ⟨D2, F2, hD2, hF2, hDm, hFm, hrem, hper⟩ := ih processed st2 hnb2 hnd0.2
        refine ⟨D2, sanitize_url u :: F2, ?_, ?_, ?_, ?_, ?_, ?_⟩
        · rw [hD2, hd]
        · rw [hF2, hf]
          simp
        · intro x hx
          rw [List.map_cons]
          exact List.mem_cons_of_mem _ (hDm x hx)
        · intro x hx
          rw [List.map_cons]
          rcases List.mem_cons.mp hx with rfl | hx2
          · exact List.mem_cons_self _ _
          · exact List.mem_cons_of_mem _ (hFm x hx2)
        · intro rem h x hx
          exact List.mem_cons_of_mem _ (hrem rem h x hx)
        · intro u2 hu2
          rcases List.mem_cons.mp hu2 with rfl | hu3
          · constructor
            · intro _
              exact Or.inr ⟨fun hin => hnd0.1 (hDm _ hin), List.mem_cons_self _ _⟩
            · intro rem hcap
              refine ⟨fun _ =>
                Or.inr ⟨fun hin => hnd0.1 (hDm _ hin), List.mem_cons_self _ _⟩,
                fun hin => absurd (hrem rem hcap _ hin) hurest⟩
          · obtain ⟨hfin, hcap⟩ := hper u2 hu3
            have hne : sanitize_url u2 ≠ sanitize_url u := hnotin u2 hu3
            constructor
            · intro h
              rcases hfin h with ⟨h1, h2⟩ | ⟨h1, h2⟩
              · exact Or.inl ⟨h1, by simp [hne, h2]⟩
              · exact Or.inr ⟨h1, List.mem_cons_of_mem _ h2⟩
            · intro rem h
              obtain ⟨hc1, hc2⟩ := hcap rem h
              constructor
              · intro hnr
                rcases hc1 hnr with ⟨h1, h2⟩ | ⟨h1, h2⟩
                · exact Or.inl ⟨h1, by simp [hne, h2]⟩
                · exact Or.inr ⟨h1, List.mem_cons_of_mem _ h2⟩
              · intro hr
                obtain ⟨h1, h2⟩ := hc2 hr
                exact ⟨h1, by simp [hne, h2]⟩
      | true =>
        dsimp only
        obtain ⟨hd, hf⟩ := (processItem_out cfg env (sanitize_url u) st).1 (by rw [hpo])
        rw [hpo] at hd hf
        dsimp only at hd hf
        have hrec : ∀ processed2 : Nat,
            ∃ D F : List String,
              (loadAllAux cfg env rest processed2 st2).1.done = st.done ++ D ∧
              (loadAllAux cfg env rest processed2 st2).1.failed = st.failed ++ F ∧
              (∀ x ∈ D, x ∈ (u :: rest).map sanitize_url) ∧
              (∀ x ∈ F, x ∈ (u :: rest).map sanitize_url) ∧
              (∀ rem, (loadAllAux cfg env rest processed2 st2).2 = RunResult.capped rem →
                ∀ x ∈ rem, x ∈ u :: rest) ∧
              (∀ u2 ∈ u :: rest,
                ((loadAllAux cfg env rest processed2 st2).2 = RunResult.finished →
                  appendedToExactlyOne (sanitize_url u2) D F) ∧
                (∀ rem,
                  (loadAllAux cfg env rest processed2 st2).2 = RunResult.capped rem →
                  (u2 ∉ rem → appendedToExactlyOne (sanitize_url u2) D F) ∧
                  (u2 ∈ rem → sanitize_url u2 ∉ D ∧ sanitize_url u2 ∉ F))) := by
          intro processed2
          obtain ⟨D2, F2, hD2, hF2, hDm, hFm, hrem, hper⟩ :=
            ih processed2 st2 hnb2 hnd0.2
          refine ⟨sanitize_url u :: D2, F2, ?_, ?_, ?_, ?_, ?_, ?_⟩
          · rw [hD2, hd]
            simp
          · rw [hF2, hf]
          · intro x hx
            rw [List.map_cons]
            rcases List.mem_cons.mp hx with rfl | hx2
            · exact List.mem_cons_self _ _
            · exact List.mem_cons_of_mem _ (hDm x hx2)
          · intro x hx
            rw [List.map_cons]
            exact List.mem_cons_of_mem _ (hFm x hx)
          · intro rem h x hx
            exact List.mem_cons_of_mem _ (hrem rem h x hx)
          · intro u2 hu2
            rcases List.mem_cons.mp hu2 with rfl | hu3
            · constructor
              · intro _
                exact Or.inl ⟨List.mem_cons_self _ _,
                  fun hin => hnd0.1 (hFm _ hin)⟩
              · intro rem hcap
                refine ⟨fun _ =>
                  Or.inl ⟨List.mem_cons_self _ _, fun hin => hnd0.1 (hFm _ hin)⟩,
                  fun hin => absurd (hrem rem hcap _ hin) hurest⟩
            · obtain ⟨hfin, hcap⟩ := hper u2 hu3
              have hne : sanitize_url u2 ≠ sanitize_url u := hnotin u2 hu3
              constructor
              · intro h
                rcases hfin h with ⟨h1, h2⟩ | ⟨h1, h2⟩
                · exact Or.inl ⟨List.mem_cons_of_mem _ h1, h2⟩
                · exact Or.inr ⟨by simp [hne, h1], h2⟩
              · intro rem h
                obtain ⟨hc1, hc2⟩ := hcap rem h
                constructor
                · intro hnr
                  rcases hc1 hnr with ⟨h1, h2⟩ | ⟨h1, h2⟩
                  · exact Or.inl ⟨List.mem_cons_of_mem _ h1, h2⟩
                  · exact Or.inr ⟨by simp [hne, h1], h2⟩
                · intro hr
                  obtain ⟨h1, h2⟩ := hc2 hr
                  exact ⟨by simp [hne, h1], h2⟩
        cases hmx : cfg.maxItems with
        | none => exact hrec (processed + 1)
        | some m =>
          dsimp only
          by_cases hcapq : m ≤ processed + 1
          · rw [if_pos hcapq]
            refine ⟨[sanitize_url u], [], ?_, ?_, ?_, ?_, ?_, ?_⟩
            · simpa using hd
            · simpa using hf
            · intro x hx
              rw [List.mem_singleton.mp hx, List.map_cons]
              exact List.mem_cons_self _ _
            · simp
            · intro rem h x hx
              cases h
              exact List.mem_cons_of_mem _ hx
            · intro u2 hu2
              refine ⟨fun h => (by cases h), ?_⟩
              intro rem h
              have hremq : rest = rem := by cases h; rfl
              subst hremq
              rcases List.mem_cons.mp hu2 with rfl | hu3
              · exact ⟨fun _ => Or.inl ⟨by simp, by simp⟩,
                  fun hin => absurd hin hurest⟩
              · refine ⟨fun hnr => absurd hu3 hnr, fun _ => ?_⟩
                exact ⟨by simp [hnotin u2 hu3], by simp⟩
          · rw [if_neg hcapq]
            exact hrec (processed + 1)

/-- C2 (amended): for every identifier in the requested queue, in a run
of the main loop that does not abort fatally, provided every queue
entry is non-blank and no two distinct entries re-sanitize to the same
identifier, the identifier's sanitized form is appended during the run
to exactly one of the completed and failed lists, or to neither exactly
when the run stopped at the configured item cap before reaching its
entry.  (Without the re-sanitization proviso the same identifier can be
appended to both lists, because `sanitize_url` is not idempotent and
`load_all` sanitizes the already-sanitized queue entries again.) -/
theorem load_all_each_appended_once (cfg : Cfg) (env : Env) (urls : List String)
    (fs : FS)
    (hnb : ∀ u ∈ urls, isBlank u = false)
    (hnd : (urls.map sanitize_url).Nodup) :
    ∀ u ∈ urls,
      ((load_all cfg env urls fs).2 = RunResult.finished →
        appendedToExactlyOne (sanitize_url u) (load_all cfg env urls fs).1.done
          (load_all cfg env urls fs).1.failed) ∧
      (∀ rem, (load_all cfg env urls fs).2 = RunResult.capped rem →
        (u ∉ rem →
          appendedToExactlyOne (sanitize_url u) (load_all cfg env urls fs).1.done
            (load_all cfg env urls fs).1.failed) ∧
        (u ∈ rem →
          sanitize_url u ∉ (load_all cfg env urls fs).1.done ∧
          sanitize_url u ∉ (load_all cfg env urls fs).1.failed)) := by
  obtain ⟨D, F, hD, hF, hDm, hFm, hrem, hper⟩ := loadAllAux_partition cfg env urls 0
    (RunState.mk fs cfg.defaultDisplay [] [] []) hnb hnd
  have hDq : (load_all cfg env urls fs).1.done = D := by
    show (loadAllAux cfg env urls 0
      (RunState.mk fs cfg.defaultDisplay [] [] [])).1.done = D
    rw [hD]
    rfl
  have hFq : (load_all cfg env urls fs).1.failed = F := by
    show (loadAllAux cfg env urls 0
      (RunState.mk fs cfg.defaultDisplay [] [] [])).1.failed = F
    rw [hF]
    rfl
  intro u hu
  obtain ⟨hfin, hcap⟩ := hper u hu
  constructor
  · intro h
    rw [appendedToExactlyOne, hDq, hFq]
    exact hfin h
  · intro rem h
    obtain ⟨h1, h2⟩ := hcap rem h
    constructor
    · intro hnr
      rw [appendedToExactlyOne, hDq, hFq]
      exact h1 hnr
    · intro hr
      rw [hDq, hFq]
      exact h2 hr

/-- Environment of the C2 counterexample: every index page announces a
single page, the content canvas is 1200x1700, screenshots capture at the
current window size, no faults, no timeouts. -/
def envX2 : Env := Env.mk (fun _ => false) (fun _ _ _ => Sync.ok)
  (fun _ => "<div class=\"x\">1 page</div>") (fun _ _ => Image.mk 1200 1700) (0, 0)
  (fun _ _ w => Image.mk w.1 w.2) (fun _ _ => false)

/-- Initial filesystem of the C2 counterexample: item `x` has an
undersized page 1 left on disk by an interrupted earlier run. -/
def fsX2 : FS := FS.mk [("x", 1, Image.mk 500 500)] ["x"] []

/-- C2, counterexample: with requested lines `x` and `x/rea/readd`, the
queue is `[x, x/read]` (both survive de-duplication), yet `load_all`
re-sanitizes `x/read` to `x`, so the single identifier `x` is processed
twice in one run — it fails once (pre-existing undersized page), is
purged, then succeeds — and ends up appended to BOTH the failed and the
completed list in the same, normally finished run. -/
theorem same_identifier_in_both_lists :
    "x" ∈ getUrlsList [] [] ["x", "x/rea/readd"] ∧
    "x" ∈ (load_all cfgW envX2 (getUrlsList [] [] ["x", "x/rea/readd"]) fsX2).1.done ∧
    "x" ∈ (load_all cfgW envX2 (getUrlsList [] [] ["x", "x/rea/readd"]) fsX2).1.failed ∧
    (load_all cfgW envX2 (getUrlsList [] [] ["x", "x/rea/readd"]) fsX2).2
      = RunResult.finished := by
  decide

/-- Witness for C2's amended theorem on a benign single-item run. -/
theorem load_all_each_appended_once_witness :
    appendedToExactlyOne (sanitize_url "https://www.fakku.net/a")
      (load_all cfgW envW ["https://www.fakku.net/a"] (FS.mk [] [] [])).1.done
      (load_all cfgW envW ["https://www.fakku.net/a"] (FS.mk [] [] [])).1.failed :=
  (load_all_each_appended_once cfgW envW ["https://www.fakku.net/a"]
    (FS.mk [] [] []) (by decide) (by decide) "https://www.fakku.net/a"
    (by decide)).1 (by decide)

end FakkuDL
